import Mathlib

/-!
Verification of the `common-types` codec library
(`source/packages/@aws-accelerator/config/lib/common-types/types.ts`).

The library is a small set of io-ts codec combinators: a CIDR codec, and the
`Defaulted`, `Optional`, `Sized` and `Enum` wrappers, together with the
`getSize` measurement function and a handful of concrete codecs such as
`nonEmptyString` and `storageClass`.  Raw JavaScript values are modelled by the
inductive type `Value`; a codec is a record of `name`, `is`, `validate` and
`encode` exactly as in io-ts.  Validation results live in `VResult`, which has
an explicit `thrown` constructor so that an escaping JavaScript exception is
distinguishable from the recoverable `Errors` channel.
-/

namespace CommonTypes

/-! ### Decimal digits: printing and parsing

The ip-num library renders the octets and the prefix length of a CIDR range in
decimal.  `natDigits` prints a natural number (most significant digit first,
no leading zeros); `parseDigits` reads a digit string back.
-/

/-- The character for a single decimal digit `n < 10`. -/
def digitChar (n : Nat) : Char := Char.ofNat (48 + n)

/-- Fuel-driven digit printer (structural recursion so that concrete instances
reduce inside the kernel). -/
def natDigitsCore : Nat → Nat → List Char → List Char
  | 0, _, acc => acc
  | fuel + 1, n, acc =>
    if n < 10 then digitChar n :: acc
    else natDigitsCore fuel (n / 10) (digitChar (n % 10) :: acc)

/-- Decimal rendering of a natural number, most significant digit first. -/
def natDigits (n : Nat) : List Char := natDigitsCore (n + 1) n []

/-- Is `c` one of the characters `0`..`9`? -/
def isDigitChar (c : Char) : Bool :=
  decide (48 ≤ c.toNat) && decide (c.toNat ≤ 57)

/-- Accumulating decimal value of a digit string. -/
def parseValAux (l : List Char) (a : Nat) : Nat :=
  l.foldl (fun x c => x * 10 + (c.toNat - 48)) a

/-- Parse a non-empty all-digit string as a decimal natural number. -/
def parseDigits : List Char → Option Nat
  | [] => none
  | l => if l.all isDigitChar then some (parseValAux l 0) else none

/-! ### Splitting on a separator character -/

/-- Split a character list on a separator, like JavaScript `String.split`:
`splitOnChar '.' "a.b"` is `["a", "b"]` and the empty list splits to `[[]]`. -/
def splitOnChar (sep : Char) : List Char → List (List Char)
  | [] => [[]]
  | c :: cs =>
    if c = sep then [] :: splitOnChar sep cs
    else
      match splitOnChar sep cs with
      | [] => [[c]]
      | t :: ts => (c :: t) :: ts

/-! ### The IPv4 CIDR range value -/

/-- Modelled from the spec: the `IPv4CidrRange` value of the external `ip-num`
library (the spec's `NetworkRange`): a 32-bit network address together with a
prefix length in `[0, 32]`. -/
structure IPv4CidrRange where
  networkAddress : Nat
  prefixLength : Nat
deriving DecidableEq, Repr

/-- Zero the address bits beyond the prefix (the spec: "networkAddress bits
beyond the prefix are conventionally zeroed by the parser"). -/
def zeroHostBits (addr p : Nat) : Nat :=
  addr / 2 ^ (32 - p) * 2 ^ (32 - p)

/-- Modelled from the spec: `IPv4CidrRange.fromCidr` of the external `ip-num`
library, on a character list.  Accepts `a.b.c.d/n` with four octets in
`[0, 255]` and a prefix length in `[0, 32]`; host bits beyond the prefix are
zeroed.  `none` models the exception thrown on unparseable input. -/
def fromCidrChars (l : List Char) : Option IPv4CidrRange :=
  match splitOnChar '/' l with
  | [addrPart, prefPart] =>
    match splitOnChar '.' addrPart with
    | [s1, s2, s3, s4] =>
      match parseDigits s1, parseDigits s2, parseDigits s3, parseDigits s4,
          parseDigits prefPart with
      | some o1, some o2, some o3, some o4, some p =>
        if o1 ≤ 255 ∧ o2 ≤ 255 ∧ o3 ≤ 255 ∧ o4 ≤ 255 ∧ p ≤ 32 then
          some ⟨zeroHostBits (o1 * 2 ^ 24 + o2 * 2 ^ 16 + o3 * 2 ^ 8 + o4) p, p⟩
        else none
      | _, _, _, _, _ => none
    | _ => none
  | _ => none

/-- Modelled from the spec: `IPv4CidrRange.fromCidr` of the external `ip-num`
library, on strings. -/
def fromCidr (s : String) : Option IPv4CidrRange := fromCidrChars s.toList

/-- Character-list form of the canonical CIDR text `a.b.c.d/n`. -/
def toCidrChars (r : IPv4CidrRange) : List Char :=
  natDigits (r.networkAddress / 2 ^ 24) ++ ('.' ::
    (natDigits (r.networkAddress / 2 ^ 16 % 256) ++ ('.' ::
      (natDigits (r.networkAddress / 2 ^ 8 % 256) ++ ('.' ::
        (natDigits (r.networkAddress % 256) ++ ('/' :: natDigits r.prefixLength)))))))

/-- Modelled from the spec: `IPv4CidrRange.toCidrString` of the external
`ip-num` library: render the range as canonical `a.b.c.d/n` text. -/
def toCidrString (r : IPv4CidrRange) : String := ⟨toCidrChars r⟩

/-- A well-formed `IPv4CidrRange` value: the address fits in 32 bits, the
prefix length is in `[0, 32]`, and the host bits beyond the prefix are zero
(the spec's invariant on `NetworkRange`). -/
def ValidRange (r : IPv4CidrRange) : Prop :=
  r.networkAddress < 2 ^ 32 ∧ r.prefixLength ≤ 32 ∧
    r.networkAddress % 2 ^ (32 - r.prefixLength) = 0

instance (r : IPv4CidrRange) : Decidable (ValidRange r) := by
  unfold ValidRange; infer_instance

/-! ### Raw JavaScript values and the io-ts result model -/

/-- Modelled from the spec: the untyped value tree handed to a codec (the
io-ts `unknown` input), covering the scalar, sequence, set and map shapes that
the library inspects, the two absence forms `null` and `undefined`, and the
`IPv4CidrRange` object produced by the CIDR codec.  A JavaScript `Set` is
modelled by its (distinct) elements in insertion order and a `Map` by its
entry list. -/
inductive Value where
  | vNull
  | vUndefined
  | vBool (b : Bool)
  | vNum (n : Int)
  | vStr (s : String)
  | vArr (elems : List Value)
  | vSet (elems : List Value)
  | vMap (entries : List (Value × Value))
  | vCidr (r : IPv4CidrRange)

/-- JavaScript `u == null`: true exactly for `null` and `undefined`. -/
def isNullish : Value → Bool
  | .vNull => true
  | .vUndefined => true
  | _ => false

/-- Modelled from the spec: one step of the io-ts validation context (a field
key and the name of the codec active there). -/
structure ContextEntry where
  key : String
  typeName : String
deriving DecidableEq

/-- Modelled from the spec: the io-ts validation context, the path to the
value currently being validated. -/
abbrev Context := List ContextEntry

/-- Modelled from the spec: one io-ts `ValidationError`: the offending value,
the context path, and an optional message. -/
structure VError where
  value : Value
  context : Context
  message : Option String

/-- Modelled from the spec: the outcome of a validation call.  `ok` and `errs`
are the two arms of the io-ts `Either`; `thrown` models a JavaScript exception
escaping the call, which is distinct from the recoverable failure channel. -/
inductive VResult where
  | ok (v : Value)
  | errs (es : List VError)
  | thrown (msg : String)

/-- Modelled from the spec: io-ts `t.success`. -/
def tSuccess (v : Value) : VResult := .ok v

/-- Modelled from the spec: io-ts `t.failure`: a single error carrying the
offending value, the context, and the optional message. -/
def tFailure (u : Value) (c : Context) (msg : Option String) : VResult :=
  .errs [⟨u, c, msg⟩]

/-- Modelled from the spec: fp-ts `either.chain`, extended so that an
exception in the first computation propagates. -/
def eitherChain (ma : VResult) (f : Value → VResult) : VResult :=
  match ma with
  | .ok v => f v
  | .errs es => .errs es
  | .thrown m => .thrown m

/-- Modelled from the spec: an io-ts codec: a name, a membership predicate
`is`, a validating decoder, and an encoder.  Domain, output and input types
are all modelled as `Value`, as everything is at JavaScript runtime. -/
structure Codec where
  name : String
  is : Value → Bool
  validate : Value → Context → VResult
  encode : Value → Value

/-- Modelled from the spec: the io-ts `t.string` primitive: succeed with the
input unchanged when it is a string, otherwise fail with the generic
(message-free) type-mismatch error. -/
def strCodec : Codec where
  name := "string"
  is := fun u => match u with | .vStr _ => true | _ => false
  validate := fun u c =>
    match u with
    | .vStr s => tSuccess (.vStr s)
    | u => tFailure u c none
  encode := fun a => a

/-- Modelled from the spec: the io-ts `t.number` primitive. -/
def numberCodec : Codec where
  name := "number"
  is := fun u => match u with | .vNum _ => true | _ => false
  validate := fun u c =>
    match u with
    | .vNum n => tSuccess (.vNum n)
    | u => tFailure u c none
  encode := fun a => a

/-! ### The codecs of `types.ts` -/

/-- Source `CidrType`: delegate to `t.string`, then try
`IPv4CidrRange.fromCidr`, converting its exception into a single failure with
message `Value {s} should be a CIDR range.`; encode via `toCidrString`. -/
def CidrType (name : Option String) : Codec where
  name := name.getD "Cidr"
  is := fun value => match value with | .vCidr _ => true | _ => false
  validate := fun str context =>
    eitherChain (strCodec.validate str context) (fun sv =>
      match sv with
      | .vStr s =>
        match fromCidr s with
        | some r => tSuccess (.vCidr r)
        | none => tFailure (.vStr s) context
            (some ("Value " ++ s ++ " should be a CIDR range."))
      | v => tSuccess v)  -- unreachable: `strCodec` only succeeds with strings
  encode := fun c =>
    match c with
    | .vCidr r => .vStr (toCidrString r)
    | v => v  -- the source would throw on a non-CIDR value; never reached

/-- The exported `cidr` constant from the source. -/
def cidr : Codec := CidrType none

/-- Source `DefaultedType`: on a nullish input (`u == null`) succeed
immediately with the default value; otherwise delegate to the inner codec. -/
def DefaultedType (type : Codec) (defaultValue : Value) (name : Option String) :
    Codec where
  name := name.getD ("Default<" ++ type.name ++ ">")
  is := type.is
  validate := fun u c =>
    if isNullish u then tSuccess defaultValue else type.validate u c
  encode := type.encode

/-- Source `OptionalType`: on a nullish input succeed with
`undefined`; otherwise delegate.  Note that `encode` is the inner codec's
encode, passed through unchanged. -/
def OptionalType (type : Codec) (name : Option String) : Codec where
  name := name.getD ("Optional<" ++ type.name ++ ">")
  is := fun u => if isNullish u then true else type.is u
  validate := fun u c =>
    if isNullish u then tSuccess .vUndefined else type.validate u c
  encode := type.encode

/-- JavaScript template-string rendering of a value, used only in the
`getSize` error message; the shapes `getSize` can measure never reach it, so
composite shapes are rendered coarsely. -/
def jsDisplay : Value → String
  | .vNull => "null"
  | .vUndefined => "undefined"
  | .vBool true => "true"
  | .vBool false => "false"
  | .vNum n => toString n
  | .vStr s => s
  | .vArr _ => "[array]"
  | .vSet _ => "[object Set]"
  | .vMap _ => "[object Map]"
  | .vCidr _ => "[object Object]"

/-- Source `getSize`: a number is its own value, a string or array
its length, a `Set` or `Map` its size; any other shape throws (modelled by
`Except.error`, the non-recoverable channel). -/
def getSize : Value → Except String Int
  | .vNum n => .ok n
  | .vStr s => .ok (s.length : Int)
  | .vArr elems => .ok (elems.length : Int)
  | .vSet elems => .ok (elems.length : Int)
  | .vMap entries => .ok (entries.length : Int)
  | w => .error ("Unsupported size value " ++ jsDisplay w)

/-- Source `SizedTypeProps`. -/
structure SizedTypeProps where
  min : Option Int
  max : Option Int
  name : Option String
  errorMessage : Option String

/-- The generated size-violation message from the source:
`Value should be of size [{min ?? -∞}, {max ?? ∞}]`. -/
def genSizeMessage (min max : Option Int) : String :=
  "Value should be of size [" ++
    (match min with | none => "-∞" | some m => toString m) ++ ", " ++
    (match max with | none => "∞" | some m => toString m) ++ "]"

/-- Source `SizedType`: delegate to the inner codec; on its success
measure the value and check the bounds.  The source computes
`!props.min || (props.min && size >= props.min)` (and likewise for `max`), so
by JavaScript falsiness a bound equal to `0` behaves like an unset bound. -/
def SizedType (type : Codec) (props : SizedTypeProps) : Codec where
  name := props.name.getD ("Sized<" ++ type.name ++ ">")
  is := type.is
  validate := fun u c =>
    eitherChain (type.validate u c) (fun s =>
      match getSize s with
      | .error m => .thrown m
      | .ok size =>
        let minValid : Bool :=
          match props.min with
          | none => true
          | some m => m == 0 || decide (m ≤ size)
        let maxValid : Bool :=
          match props.max with
          | none => true
          | some m => m == 0 || decide (size ≤ m)
        if minValid && maxValid then tSuccess s
        else tFailure s c
          (some (props.errorMessage.getD (genSizeMessage props.min props.max))))
  encode := type.encode

/-- Source `EnumTypeProps`. -/
structure EnumTypeProps where
  name : String
  errorMessage : Option String

/-- An allowed enum member: the source constrains enum values to
`string | number` literals. -/
inductive Prim where
  | pStr (s : String)
  | pNum (n : Int)
deriving DecidableEq

/-- JavaScript strict equality `v === u` between an enum member and a raw
value. -/
def primEqValue : Prim → Value → Bool
  | .pStr s, .vStr t => s == t
  | .pNum n, .vNum m => n == m
  | _, _ => false

/-- JavaScript stringification of an enum member, as used when joining
the values for the generated message. -/
def primToString : Prim → String
  | .pStr s => s
  | .pNum n => toString n

/-- The generated enum-violation message from the source:
`Value should be one of "{v1}", "{v2}", ...`. -/
def genEnumMessage (values : List Prim) : String :=
  "Value should be one of \"" ++
    String.intercalate "\", \"" (values.map primToString) ++ "\""

/-- Source `EnumType`: membership test against the allowed values,
success with the input unchanged on membership, otherwise a failure with the
custom or generated message; encode is `t.identity`. -/
def EnumType (values : List Prim) (props : EnumTypeProps) : Codec where
  name := props.name
  is := fun u => values.any (fun v => primEqValue v u)
  validate := fun u c =>
    if values.any (fun v => primEqValue v u) then tSuccess u
    else tFailure u c (some (props.errorMessage.getD (genEnumMessage values)))
  encode := fun a => a

/-- The `defaulted` factory from the source. -/
def defaulted (type : Codec) (defaultValue : Value) (name : Option String) :
    Codec :=
  DefaultedType type defaultValue name

/-- The `sized` factory from the source. -/
def sized (type : Codec) (props : SizedTypeProps) : Codec :=
  SizedType type props

/-- The `enums` factory from the source. -/
def enums (name : String) (values : List Prim) (errorMessage : Option String) :
    Codec :=
  EnumType values ⟨name, errorMessage⟩

/-- The `optional` factory from the source. -/
def optional (wrapped : Codec) (name : Option String) : Codec :=
  OptionalType wrapped name

/-- The exported `nonEmptyString` constant from the source. -/
def nonEmptyString : Codec :=
  sized strCodec ⟨some 1, none, none, some "Value can not be empty."⟩

/-- The literal value list of the exported `storageClass` enum from the
source.  The intended error message was passed inside the value array (as its
seventh member) rather than as the `errorMessage` argument of `enums`. -/
def storageClassValues : List Prim :=
  [.pStr "DEEP_ARCHIVE",
   .pStr "GLACIER",
   .pStr "GLACIER_IR",
   .pStr "STANDARD_IA",
   .pStr "INTELLIGENT_TIERING",
   .pStr "ONEZONE_IA",
   .pStr "Value should be an AWS S3 Storage Class."]

/-- The exported `storageClass` constant from the source: `enums` applied to
the value list above, with no `errorMessage` argument. -/
def storageClass : Codec := enums "storageClass" storageClassValues none

/-! ### Test-article codecs

Arbitrary custom codecs (any io-ts `t.Type` subclass a caller could define),
used to observe the wrappers' delegation behaviour. -/

/-- A codec whose `validate` always throws: used to observe that a wrapper
never invokes the inner `validate` on absent input. -/
def throwingCodec : Codec where
  name := "throwing"
  is := fun _ => false
  validate := fun _ _ => .thrown "validate invoked"
  encode := fun a => a

/-- A codec whose `encode` is a constant function: used to observe whether a
wrapper invokes the inner `encode`. -/
def constEncCodec : Codec where
  name := "constEnc"
  is := fun _ => true
  validate := fun u _ => tSuccess u
  encode := fun _ => .vStr "enc"

/-! ### Claim-shaped predicates -/

/-- The lower size bound is satisfied: the bound is unset, or equal to `0`
(which the source's JavaScript falsiness check treats like an unset bound),
or the measured size is at least the bound. -/
def minOk (min : Option Int) (size : Int) : Prop :=
  ∀ m, min = some m → m = 0 ∨ m ≤ size

/-- The upper size bound is satisfied: the bound is unset, or equal to `0`
(treated like an unset bound by the source's falsiness check), or the
measured size is at most the bound. -/
def maxOk (max : Option Int) (size : Int) : Prop :=
  ∀ m, max = some m → m = 0 ∨ size ≤ m

/-- The codec invariant of the spec: every value produced by a successful
`validate` satisfies the codec's `is` predicate. -/
def SuccImpliesIs (T : Codec) : Prop :=
  ∀ u c a, T.validate u c = VResult.ok a → T.is a = true

/-! ### Digit printing reads back correctly -/

theorem digitChar_toNat {n : Nat} (h : n < 10) : (digitChar n).toNat = 48 + n := by
  interval_cases n <;> rfl

theorem isDigitChar_digitChar {n : Nat} (h : n < 10) :
    isDigitChar (digitChar n) = true := by
  simp only [isDigitChar, digitChar_toNat h, Bool.and_eq_true, decide_eq_true_eq]
  omega

theorem parseValAux_append (l1 l2 : List Char) (a : Nat) :
    parseValAux (l1 ++ l2) a = parseValAux l2 (parseValAux l1 a) := by
  simp [parseValAux, List.foldl_append]

theorem natDigitsCore_spec :
    ∀ (fuel n : Nat) (acc : List Char), n < 10 ^ (fuel + 1) →
      ∃ ds : List Char, ds ≠ [] ∧ ds.all isDigitChar = true ∧
        natDigitsCore (fuel + 1) n acc = ds ++ acc ∧
        ∀ a, parseValAux ds a = a * 10 ^ ds.length + n := by
  intro fuel
  induction fuel with
  | zero =>
    intro n acc h
    have h10 : n < 10 := by simpa using h
    refine ⟨[digitChar n], by simp, by simp [isDigitChar_digitChar h10], ?_, ?_⟩
    · simp [natDigitsCore, h10]
    · intro a
      simp [parseValAux, digitChar_toNat h10]
  | succ fuel ih =>
    intro n acc h
    by_cases h10 : n < 10
    · refine ⟨[digitChar n], by simp, by simp [isDigitChar_digitChar h10], ?_, ?_⟩
      · simp [natDigitsCore, h10]
      · intro a
        simp [parseValAux, digitChar_toNat h10]
    · have hdiv : n / 10 < 10 ^ (fuel + 1) := by
        rw [Nat.div_lt_iff_lt_mul (by norm_num)]
        calc n < 10 ^ (fuel + 1 + 1) := h
          _ = 10 ^ (fuel + 1) * 10 := by ring
      obtain ⟨ds, hne, hall, heq, hval⟩ := ih (n / 10) (digitChar (n % 10) :: acc) hdiv
      have hm10 : n % 10 < 10 := Nat.mod_lt _ (by norm_num)
      refine ⟨ds ++ [digitChar (n % 10)], by simp, ?_, ?_, ?_⟩
      · simp [List.all_append, hall, isDigitChar_digitChar hm10]
      · show natDigitsCore (fuel + 1 + 1) n acc = _
        rw [natDigitsCore, if_neg h10, heq]
        simp
      · intro a
        rw [parseValAux_append, hval]
        have hstep : parseValAux [digitChar (n % 10)] (a * 10 ^ ds.length + n / 10) =
            (a * 10 ^ ds.length + n / 10) * 10 + n % 10 := by
          simp [parseValAux, digitChar_toNat hm10]
        rw [hstep]
        have hlen : (ds ++ [digitChar (n % 10)]).length = ds.length + 1 := by simp
        rw [hlen, pow_succ, ← mul_assoc]
        have hdm := Nat.div_add_mod n 10
        set k := (10 : Nat) ^ ds.length
        omega

theorem natDigits_spec (n : Nat) :
    natDigits n ≠ [] ∧ (natDigits n).all isDigitChar = true ∧
      parseDigits (natDigits n) = some n := by
  have hlt : n < 10 ^ (n + 1) := by
    calc n < 10 ^ n := Nat.lt_pow_self (by norm_num) n
      _ ≤ 10 ^ (n + 1) := Nat.pow_le_pow_right (by norm_num) (Nat.le_succ n)
  obtain ⟨ds, hne, hall, heq, hval⟩ := natDigitsCore_spec n n [] hlt
  have hd : natDigits n = ds := by rw [natDigits, heq, List.append_nil]
  refine ⟨by rw [hd]; exact hne, by rw [hd]; exact hall, ?_⟩
  rw [hd]
  cases ds with
  | nil => exact absurd rfl hne
  | cons d tl =>
    have := hval 0
    simp only [parseDigits, hall, if_true]
    rw [this]
    simp

theorem all_digit_not_mem {l : List Char} (hall : l.all isDigitChar = true)
    {c : Char} (hc : isDigitChar c = false) : c ∉ l := by
  intro hmem
  rw [List.all_eq_true] at hall
  have := hall c hmem
  rw [hc] at this
  exact Bool.noConfusion this

/-! ### Splitting lemmas -/

theorem splitOnChar_of_not_mem (sep : Char) (l : List Char) (h : sep ∉ l) :
    splitOnChar sep l = [l] := by
  induction l with
  | nil => rfl
  | cons c cs ih =>
    have hc : ¬ c = sep := fun he => h (he ▸ List.mem_cons_self c cs)
    have hcs : sep ∉ cs := fun hm => h (List.mem_cons_of_mem c hm)
    rw [splitOnChar, if_neg hc, ih hcs]

theorem splitOnChar_append (sep : Char) (x rest : List Char) (h : sep ∉ x) :
    splitOnChar sep (x ++ sep :: rest) = x :: splitOnChar sep rest := by
  induction x with
  | nil => simp [splitOnChar]
  | cons c cs ih =>
    have hc : ¬ c = sep := fun he => h (he ▸ List.mem_cons_self c cs)
    have hcs : sep ∉ cs := fun hm => h (List.mem_cons_of_mem c hm)
    rw [List.cons_append, splitOnChar, if_neg hc, ih hcs]

/-! ### The CIDR text round trip -/

theorem not_mem_append_of {c : Char} {l1 l2 : List Char} (h1 : c ∉ l1)
    (h2 : c ∉ l2) : c ∉ l1 ++ l2 := by
  intro hm
  rcases List.mem_append.mp hm with h | h
  exacts [h1 h, h2 h]

theorem not_mem_cons_of {c d : Char} {l : List Char} (h1 : c ≠ d)
    (h2 : c ∉ l) : c ∉ d :: l := by
  intro hm
  rcases List.mem_cons.mp hm with h | h
  exacts [h1 h, h2 h]

theorem fromCidrChars_toCidrChars (A p : Nat) (haddr : A < 2 ^ 32)
    (hpref : p ≤ 32) (hzero : A % 2 ^ (32 - p) = 0) :
    fromCidrChars (toCidrChars ⟨A, p⟩) = some ⟨A, p⟩ := by
  obtain ⟨hne1, hall1, hp1⟩ := natDigits_spec (A / 2 ^ 24)
  obtain ⟨hne2, hall2, hp2⟩ := natDigits_spec (A / 2 ^ 16 % 256)
  obtain ⟨hne3, hall3, hp3⟩ := natDigits_spec (A / 2 ^ 8 % 256)
  obtain ⟨hne4, hall4, hp4⟩ := natDigits_spec (A % 256)
  obtain ⟨hnep, hallp, hpp⟩ := natDigits_spec p
  have hdot : isDigitChar '.' = false := by decide
  have hslash : isDigitChar '/' = false := by decide
  have hto : toCidrChars ⟨A, p⟩ =
      (natDigits (A / 2 ^ 24) ++ ('.' ::
        (natDigits (A / 2 ^ 16 % 256) ++ ('.' ::
          (natDigits (A / 2 ^ 8 % 256) ++ ('.' :: natDigits (A % 256))))))) ++
        ('/' :: natDigits p) := by
    simp [toCidrChars, List.append_assoc]
  have hnoslash : ('/' : Char) ∉
      natDigits (A / 2 ^ 24) ++ ('.' ::
        (natDigits (A / 2 ^ 16 % 256) ++ ('.' ::
          (natDigits (A / 2 ^ 8 % 256) ++ ('.' :: natDigits (A % 256)))))) :=
    not_mem_append_of (all_digit_not_mem hall1 hslash)
      (not_mem_cons_of (by decide)
        (not_mem_append_of (all_digit_not_mem hall2 hslash)
          (not_mem_cons_of (by decide)
            (not_mem_append_of (all_digit_not_mem hall3 hslash)
              (not_mem_cons_of (by decide)
                (all_digit_not_mem hall4 hslash))))))
  have hs1 : splitOnChar '/' (toCidrChars ⟨A, p⟩) =
      [natDigits (A / 2 ^ 24) ++ ('.' ::
        (natDigits (A / 2 ^ 16 % 256) ++ ('.' ::
          (natDigits (A / 2 ^ 8 % 256) ++ ('.' :: natDigits (A % 256)))))),
       natDigits p] := by
    rw [hto, splitOnChar_append _ _ _ hnoslash,
      splitOnChar_of_not_mem _ _ (all_digit_not_mem hallp hslash)]
  have hs2 : splitOnChar '.'
      (natDigits (A / 2 ^ 24) ++ ('.' ::
        (natDigits (A / 2 ^ 16 % 256) ++ ('.' ::
          (natDigits (A / 2 ^ 8 % 256) ++ ('.' :: natDigits (A % 256))))))) =
      [natDigits (A / 2 ^ 24), natDigits (A / 2 ^ 16 % 256),
       natDigits (A / 2 ^ 8 % 256), natDigits (A % 256)] := by
    rw [splitOnChar_append _ _ _ (all_digit_not_mem hall1 hdot),
      splitOnChar_append _ _ _ (all_digit_not_mem hall2 hdot),
      splitOnChar_append _ _ _ (all_digit_not_mem hall3 hdot),
      splitOnChar_of_not_mem _ _ (all_digit_not_mem hall4 hdot)]
  have hbounds : A / 2 ^ 24 ≤ 255 ∧ A / 2 ^ 16 % 256 ≤ 255 ∧
      A / 2 ^ 8 % 256 ≤ 255 ∧ A % 256 ≤ 255 ∧ p ≤ 32 := by
    refine ⟨?_, ?_, ?_, ?_, hpref⟩ <;> omega
  have hre : A / 2 ^ 24 * 2 ^ 24 + A / 2 ^ 16 % 256 * 2 ^ 16 +
      A / 2 ^ 8 % 256 * 2 ^ 8 + A % 256 = A := by omega
  have hz : zeroHostBits A p = A := by
    unfold zeroHostBits
    exact Nat.div_mul_cancel (Nat.dvd_of_mod_eq_zero hzero)
  simp only [fromCidrChars, hs1, hs2, hp1, hp2, hp3, hp4, hpp]
  rw [if_pos hbounds, hre, hz]

theorem fromCidr_toCidrString (r : IPv4CidrRange) (h : ValidRange r) :
    fromCidr (toCidrString r) = some r := by
  obtain ⟨A, p⟩ := r
  obtain ⟨h1, h2, h3⟩ := h
  exact fromCidrChars_toCidrChars A p h1 h2 h3

/-! ### Reduction lemmas for the codecs -/

theorem cidr_validate_str (s : String) (c : Context) :
    cidr.validate (.vStr s) c =
      match fromCidr s with
      | some r => tSuccess (.vCidr r)
      | none => tFailure (.vStr s) c
          (some ("Value " ++ s ++ " should be a CIDR range.")) := rfl

theorem cidr_validate_not_string (u : Value) (c : Context)
    (h : ∀ s, u ≠ Value.vStr s) : cidr.validate u c = tFailure u c none := by
  cases u with
  | vStr s => exact absurd rfl (h s)
  | vNull => rfl
  | vUndefined => rfl
  | vBool b => rfl
  | vNum n => rfl
  | vArr elems => rfl
  | vSet elems => rfl
  | vMap entries => rfl
  | vCidr r => rfl

theorem DefaultedType_validate_eq (T : Codec) (d : Value) (nm : Option String)
    (u : Value) (c : Context) :
    (DefaultedType T d nm).validate u c =
      if isNullish u = true then tSuccess d else T.validate u c := rfl

theorem OptionalType_validate_eq (T : Codec) (nm : Option String)
    (u : Value) (c : Context) :
    (OptionalType T nm).validate u c =
      if isNullish u = true then tSuccess .vUndefined else T.validate u c := rfl

theorem SizedType_validate_eq (T : Codec) (props : SizedTypeProps)
    (u : Value) (c : Context) :
    (SizedType T props).validate u c =
      eitherChain (T.validate u c) (fun s =>
        match getSize s with
        | .error m => .thrown m
        | .ok size =>
          if ((match props.min with
               | none => true
               | some m => m == 0 || decide (m ≤ size)) &&
              (match props.max with
               | none => true
               | some m => m == 0 || decide (size ≤ m))) = true
          then tSuccess s
          else tFailure s c
            (some (props.errorMessage.getD
              (genSizeMessage props.min props.max)))) := rfl

theorem EnumType_validate_eq (values : List Prim) (props : EnumTypeProps)
    (u : Value) (c : Context) :
    (EnumType values props).validate u c =
      if (values.any fun v => primEqValue v u) = true then tSuccess u
      else tFailure u c
        (some (props.errorMessage.getD (genEnumMessage values))) := rfl

theorem strCodec_succ_is : SuccImpliesIs strCodec := by
  intro u c a h
  cases u with
  | vStr s =>
    simp only [strCodec, tSuccess] at h ⊢
    injection h with h2
    rw [← h2]
  | vNull => simp [strCodec, tFailure] at h
  | vUndefined => simp [strCodec, tFailure] at h
  | vBool b => simp [strCodec, tFailure] at h
  | vNum n => simp [strCodec, tFailure] at h
  | vArr elems => simp [strCodec, tFailure] at h
  | vSet elems => simp [strCodec, tFailure] at h
  | vMap entries => simp [strCodec, tFailure] at h
  | vCidr r => simp [strCodec, tFailure] at h

/-! ### Claim C2 -/

/-- C2 is false as stated: `OptionalType` passes the inner codec's `encode`
through unchanged, so encoding the `Absent` value (`undefined`) through
`Optional(T)` does invoke `T.encode`.  With an inner codec whose `encode` is
the constant `"enc"`, `Optional(T).encode(undefined)` is `"enc"`, not the
`Absent` sentinel. -/
theorem C2_counterexample :
    (OptionalType constEncCodec none).encode .vUndefined = .vStr "enc"
    ∧ Value.vStr "enc" ≠ Value.vUndefined
    ∧ constEncCodec.encode .vUndefined = .vStr "enc" :=
  ⟨rfl, by simp, rfl⟩

/-- C2 (amended): `Optional(T).encode` is exactly `T.encode`: for every value
(present values and the `Absent` sentinel alike) it delegates to the inner
codec's encode; `Absent` encodes to `Absent` only when `T.encode` maps
`undefined` to itself. -/
theorem C2_optional_encode (T : Codec) (nm : Option String) (a : Value) :
    (OptionalType T nm).encode a = T.encode a := rfl

/-! ### Claim C5 -/

/-- C5: `Defaulted(T, d).validate` succeeds immediately with the default on an
absent input (`null` or `undefined`) for every inner codec `T` — including a
codec whose validate always fails or throws, so the inner validate is never
reached — and on any present, non-null input it is exactly `T.validate`. -/
theorem C5_defaulted_validate (T : Codec) (d : Value) (nm : Option String)
    (u : Value) (c : Context) :
    ((u = Value.vNull ∨ u = Value.vUndefined) →
      (DefaultedType T d nm).validate u c = tSuccess d)
    ∧ (u ≠ Value.vNull → u ≠ Value.vUndefined →
      (DefaultedType T d nm).validate u c = T.validate u c) := by
  constructor
  · rintro (rfl | rfl) <;> rfl
  · intro h1 h2
    cases u with
    | vNull => exact absurd rfl h1
    | vUndefined => exact absurd rfl h2
    | vBool b => rfl
    | vNum n => rfl
    | vStr s => rfl
    | vArr elems => rfl
    | vSet elems => rfl
    | vMap entries => rfl
    | vCidr r => rfl

/-- Witness for C5, at a throwing inner codec (whose validate is observably
never invoked on absent input) and at the string codec on a present input. -/
theorem C5_witness :
    (DefaultedType throwingCodec (.vStr "d") none).validate .vNull [] =
      tSuccess (.vStr "d")
    ∧ (DefaultedType throwingCodec (.vStr "d") none).validate .vUndefined [] =
      tSuccess (.vStr "d")
    ∧ (DefaultedType strCodec (.vStr "d") none).validate (.vStr "x") [] =
      strCodec.validate (.vStr "x") [] :=
  ⟨(C5_defaulted_validate throwingCodec (.vStr "d") none .vNull []).1 (Or.inl rfl),
   (C5_defaulted_validate throwingCodec (.vStr "d") none .vUndefined []).1 (Or.inr rfl),
   (C5_defaulted_validate strCodec (.vStr "d") none (.vStr "x") []).2
     (by simp) (by simp)⟩

/-! ### Claim C6 -/

/-- C6: `Optional(T).validate` succeeds with the `Absent` sentinel
(`undefined`) on `null` and on `undefined`, and on any present, non-null input
it is exactly `T.validate`. -/
theorem C6_optional_validate (T : Codec) (nm : Option String) (c : Context) :
    (OptionalType T nm).validate .vNull c = tSuccess .vUndefined
    ∧ (OptionalType T nm).validate .vUndefined c = tSuccess .vUndefined
    ∧ ∀ u, u ≠ Value.vNull → u ≠ Value.vUndefined →
        (OptionalType T nm).validate u c = T.validate u c := by
  refine ⟨rfl, rfl, ?_⟩
  intro u h1 h2
  cases u with
  | vNull => exact absurd rfl h1
  | vUndefined => exact absurd rfl h2
  | vBool b => rfl
  | vNum n => rfl
  | vStr s => rfl
  | vArr elems => rfl
  | vSet elems => rfl
  | vMap entries => rfl
  | vCidr r => rfl

/-- Witness for C6 at the string codec and a present input. -/
theorem C6_witness :
    (OptionalType strCodec none).validate (.vStr "x") [] =
      strCodec.validate (.vStr "x") [] :=
  (C6_optional_validate strCodec none []).2.2 (.vStr "x") (by simp) (by simp)

/-! ### Claim C8 -/

/-- C8: `getSize` returns a number's own value, a string's character count,
an array's element count, a set's cardinality and a map's entry count, and for
every other runtime shape (boolean, null, undefined, or an object such as an
`IPv4CidrRange`) it throws — the `Except.error` channel here, distinct from
the recoverable failure `Result`. -/
theorem C8_getSize :
    (∀ n, getSize (.vNum n) = Except.ok n)
    ∧ (∀ s, getSize (.vStr s) = Except.ok (s.length : Int))
    ∧ (∀ elems, getSize (.vArr elems) = Except.ok (elems.length : Int))
    ∧ (∀ elems, getSize (.vSet elems) = Except.ok (elems.length : Int))
    ∧ (∀ entries, getSize (.vMap entries) = Except.ok (entries.length : Int))
    ∧ (∀ b, ∃ m, getSize (.vBool b) = Except.error m)
    ∧ (∃ m, getSize .vNull = Except.error m)
    ∧ (∃ m, getSize .vUndefined = Except.error m)
    ∧ (∀ r, ∃ m, getSize (.vCidr r) = Except.error m) :=
  ⟨fun _ => rfl, fun _ => rfl, fun _ => rfl, fun _ => rfl, fun _ => rfl,
   fun _ => ⟨_, rfl⟩, ⟨_, rfl⟩, ⟨_, rfl⟩, fun _ => ⟨_, rfl⟩⟩

/-! ### Claim C10 -/

/-- C10: the `storageClass` enum's allowed-value list carries the string
`Value should be an AWS S3 Storage Class.` as its seventh member (it was
passed inside the values array, not as the `errorMessage` argument), so
validating that exact string succeeds with it unchanged, while validating a
non-member fails with the generated message that lists it among the allowed
values instead of using it as the error message. -/
theorem C10_storageClass :
    storageClassValues[6]? =
      some (Prim.pStr "Value should be an AWS S3 Storage Class.")
    ∧ storageClass.validate
        (.vStr "Value should be an AWS S3 Storage Class.") [] =
      tSuccess (.vStr "Value should be an AWS S3 Storage Class.")
    ∧ storageClass.validate (.vStr "STANDARD") [] =
      tFailure (.vStr "STANDARD") []
        (some "Value should be one of \"DEEP_ARCHIVE\", \"GLACIER\", \"GLACIER_IR\", \"STANDARD_IA\", \"INTELLIGENT_TIERING\", \"ONEZONE_IA\", \"Value should be an AWS S3 Storage Class.\"")
    ∧ ∀ u c, (storageClassValues.any fun v => primEqValue v u) = false →
        storageClass.validate u c =
          tFailure u c (some (genEnumMessage storageClassValues)) := by
  refine ⟨rfl, rfl, rfl, ?_⟩
  intro u c h
  exact (EnumType_validate_eq storageClassValues ⟨"storageClass", none⟩ u c).trans
    (if_neg (by simp [h]))

/-- Witness for C10 at a further non-member input. -/
theorem C10_witness :
    storageClass.validate (.vStr "GLACIER_DEEP") [] =
      tFailure (.vStr "GLACIER_DEEP") []
        (some (genEnumMessage storageClassValues)) :=
  C10_storageClass.2.2.2 (.vStr "GLACIER_DEEP") [] (by decide)

/-! ### Claim C1 -/

/-- C1 is false as stated: a bound equal to `0` is falsy in JavaScript, so
`!props.min` treats `min = 0` like an unset bound.  With `Sized(number,
{min: 0})` on the raw input `-1`, the inner codec succeeds with `-1`, whose
size is `-1 < 0 = min`, so the claim requires a failure — but the code
succeeds. -/
theorem C1_counterexample :
    (SizedType numberCodec ⟨some 0, none, none, none⟩).validate (.vNum (-1)) [] =
      tSuccess (.vNum (-1))
    ∧ numberCodec.validate (.vNum (-1)) [] = tSuccess (.vNum (-1))
    ∧ getSize (.vNum (-1)) = Except.ok (-1)
    ∧ ¬ ((0 : Int) ≤ -1) :=
  ⟨rfl, rfl, rfl, by norm_num⟩

/-- C1 (amended): an inner failure propagates unchanged; on an inner success
with a measurable value `s`, `Sized(T).validate` succeeds with `s` iff each
bound is unset, equal to `0` (which the JavaScript falsiness check treats as
unset), or satisfied by `size(s)`, and otherwise fails with the custom error
message when supplied, else with the generated message
`Value should be of size [{min or -∞}, {max or ∞}]`. -/
theorem C1_sized_validate (T : Codec) (props : SizedTypeProps) (u : Value)
    (c : Context) :
    (∀ es, T.validate u c = VResult.errs es →
      (SizedType T props).validate u c = VResult.errs es)
    ∧ (∀ s size, T.validate u c = tSuccess s → getSize s = Except.ok size →
        ((minOk props.min size ∧ maxOk props.max size →
          (SizedType T props).validate u c = tSuccess s)
        ∧ (¬ (minOk props.min size ∧ maxOk props.max size) →
          (SizedType T props).validate u c =
            tFailure s c (some (props.errorMessage.getD
              (genSizeMessage props.min props.max)))))) := by
  constructor
  · intro es h
    rw [SizedType_validate_eq, h]
    rfl
  · intro s size hv hs
    have hred : (SizedType T props).validate u c =
        (if ((match props.min with
              | none => true
              | some m => m == 0 || decide (m ≤ size)) &&
             (match props.max with
              | none => true
              | some m => m == 0 || decide (size ≤ m))) = true
         then tSuccess s
         else tFailure s c (some (props.errorMessage.getD
           (genSizeMessage props.min props.max)))) := by
      rw [SizedType_validate_eq, hv]
      simp only [tSuccess, eitherChain, hs]
    have hcond : (((match props.min with
          | none => true
          | some m => m == 0 || decide (m ≤ size)) &&
         (match props.max with
          | none => true
          | some m => m == 0 || decide (size ≤ m))) = true) ↔
        (minOk props.min size ∧ maxOk props.max size) := by
      cases props.min <;> cases props.max <;>
        simp [minOk, maxOk, Bool.and_eq_true, Bool.or_eq_true,
          decide_eq_true_eq]
    refine ⟨fun hok => ?_, fun hnot => ?_⟩
    · rw [hred, if_pos (hcond.mpr hok)]
    · rw [hred, if_neg (fun hb => hnot (hcond.mp hb))]

/-- Witness for C1 at the source's `nonEmptyString` codec: the empty string
violates `min = 1` and fails with the custom message, a one-character string
passes. -/
theorem C1_witness :
    nonEmptyString.validate (.vStr "") [] =
      tFailure (.vStr "") [] (some "Value can not be empty.")
    ∧ nonEmptyString.validate (.vStr "a") [] = tSuccess (.vStr "a") := by
  have h0 := (C1_sized_validate strCodec
    ⟨some 1, none, none, some "Value can not be empty."⟩ (.vStr "") []).2
    (.vStr "") 0 rfl rfl
  have h1 := (C1_sized_validate strCodec
    ⟨some 1, none, none, some "Value can not be empty."⟩ (.vStr "a") []).2
    (.vStr "a") 1 rfl rfl
  refine ⟨h0.2 ?_, h1.1 ?_⟩
  · rintro ⟨hmin, -⟩
    rcases hmin 1 rfl with h | h <;> omega
  · constructor
    · intro m hm
      injection hm with hm2
      right
      omega
    · intro m hm
      exact absurd hm (by simp)

/-! ### Claim C3 -/

/-- C3: for every valid `NetworkRange` value (32-bit address, prefix length in
`[0, 32]`, host bits zero), decoding the encoded canonical text succeeds and
yields the original value; consequently decode is a left inverse of encode,
and on already-canonical text (the encoding of some valid range) decode
succeeds and re-encoding reproduces the text exactly. -/
theorem C3_cidr_roundtrip (r : IPv4CidrRange) (h : ValidRange r) (c : Context) :
    fromCidr (toCidrString r) = some r
    ∧ cidr.encode (.vCidr r) = .vStr (toCidrString r)
    ∧ cidr.validate (.vStr (toCidrString r)) c = tSuccess (.vCidr r)
    ∧ cidr.validate (cidr.encode (.vCidr r)) c = tSuccess (.vCidr r) := by
  have hf := fromCidr_toCidrString r h
  have hval : cidr.validate (.vStr (toCidrString r)) c = tSuccess (.vCidr r) := by
    rw [cidr_validate_str, hf]
  exact ⟨hf, rfl, hval, hval⟩

/-- Witness for C3 at the spec's example: `10.0.0.0/16` is network
`10.0.0.0` (address `167772160`) with prefix `16`, and encoding that value
yields exactly `10.0.0.0/16`. -/
theorem C3_witness :
    cidr.validate (.vStr "10.0.0.0/16") [] =
      tSuccess (.vCidr ⟨167772160, 16⟩)
    ∧ cidr.encode (.vCidr ⟨167772160, 16⟩) = .vStr "10.0.0.0/16" := by
  have h := C3_cidr_roundtrip ⟨167772160, 16⟩ (by decide) []
  exact ⟨h.2.2.1, h.2.1⟩

/-! ### Claim C4 -/

/-- C4: on text input that is not parseable as IPv4 CIDR notation, the CIDR
codec fails with the single error `Value {s} should be a CIDR range.` — never
with an escaping exception — and on non-text input it fails with the string
codec's generic, message-free type-mismatch failure. -/
theorem C4_cidr_errors :
    (∀ s c, fromCidr s = none → cidr.validate (.vStr s) c =
      tFailure (.vStr s) c (some ("Value " ++ s ++ " should be a CIDR range.")))
    ∧ (∀ u c, (∀ s, u ≠ Value.vStr s) → cidr.validate u c = tFailure u c none)
    ∧ (∀ u c m, cidr.validate u c ≠ VResult.thrown m) := by
  refine ⟨?_, ?_, ?_⟩
  · intro s c h
    rw [cidr_validate_str, h]
  · intro u c h
    exact cidr_validate_not_string u c h
  · intro u c m
    by_cases hstr : ∃ s, u = Value.vStr s
    · obtain ⟨s, rfl⟩ := hstr
      rw [cidr_validate_str]
      cases hf : fromCidr s <;> simp [tSuccess, tFailure]
    · have hns : ∀ s, u ≠ Value.vStr s := fun s he => hstr ⟨s, he⟩
      rw [cidr_validate_not_string u c hns]
      simp [tFailure]

/-- Witness for C4 at the spec's example `not-a-cidr` and at a numeric
(non-text) input. -/
theorem C4_witness :
    cidr.validate (.vStr "not-a-cidr") [] =
      tFailure (.vStr "not-a-cidr") []
        (some "Value not-a-cidr should be a CIDR range.")
    ∧ cidr.validate (.vNum 5) [] = tFailure (.vNum 5) [] none := by
  refine ⟨C4_cidr_errors.1 "not-a-cidr" [] (by decide),
    C4_cidr_errors.2.1 (.vNum 5) [] ?_⟩
  intro s
  simp

/-! ### Claim C7 -/

/-- C7: an enum codec's validate succeeds with the input unchanged iff the
input is strictly equal to some allowed value; otherwise it fails with the
custom message when supplied, else the generated message listing every
allowed value in declaration order; and encode is the identity. -/
theorem C7_enum_validate (values : List Prim) (props : EnumTypeProps)
    (u : Value) (c : Context) :
    ((EnumType values props).validate u c = tSuccess u ↔
      ∃ v ∈ values, primEqValue v u = true)
    ∧ (¬ (∃ v ∈ values, primEqValue v u = true) →
        (EnumType values props).validate u c =
          tFailure u c (some (props.errorMessage.getD (genEnumMessage values))))
    ∧ (∀ a, (EnumType values props).encode a = a) := by
  have hmem : (values.any fun v => primEqValue v u) = true ↔
      ∃ v ∈ values, primEqValue v u = true := by
    simp [List.any_eq_true]
  by_cases hb : (values.any fun v => primEqValue v u) = true
  · refine ⟨?_, fun hn => absurd (hmem.mp hb) hn, fun a => rfl⟩
    rw [EnumType_validate_eq, if_pos hb]
    exact iff_of_true rfl (hmem.mp hb)
  · refine ⟨?_, ?_, fun a => rfl⟩
    · rw [EnumType_validate_eq, if_neg hb]
      constructor
      · intro h
        exact absurd h (by simp [tSuccess, tFailure])
      · intro h
        exact absurd (hmem.mpr h) hb
    · intro hn
      rw [EnumType_validate_eq, if_neg hb]

/-- Witness for C7 at the spec's example enum over `allow` and `deny`. -/
theorem C7_witness :
    (EnumType [.pStr "allow", .pStr "deny"] ⟨"AllowDeny", none⟩).validate
      (.vStr "deny") [] = tSuccess (.vStr "deny")
    ∧ (EnumType [.pStr "allow", .pStr "deny"] ⟨"AllowDeny", none⟩).validate
      (.vStr "maybe") [] =
      tFailure (.vStr "maybe") []
        (some "Value should be one of \"allow\", \"deny\"") := by
  constructor
  · exact (C7_enum_validate [.pStr "allow", .pStr "deny"] ⟨"AllowDeny", none⟩
      (.vStr "deny") []).1.mpr ⟨.pStr "deny", by decide, rfl⟩
  · exact (C7_enum_validate [.pStr "allow", .pStr "deny"] ⟨"AllowDeny", none⟩
      (.vStr "maybe") []).2.1 (by decide)

/-! ### Claim C9 -/

/-- C9: every successful validate yields a value satisfying the codec's `is`:
unconditionally for the CIDR and enum codecs, and for the Defaulted, Optional
and Sized wrappers whenever the inner codec satisfies the same invariant —
with Defaulted additionally requiring that the trusted, never re-validated
default satisfies the inner codec's `is`. -/
theorem C9_validate_is :
    SuccImpliesIs cidr
    ∧ (∀ T d nm, SuccImpliesIs T → T.is d = true →
        SuccImpliesIs (DefaultedType T d nm))
    ∧ (∀ T nm, SuccImpliesIs T → SuccImpliesIs (OptionalType T nm))
    ∧ (∀ T props, SuccImpliesIs T → SuccImpliesIs (SizedType T props))
    ∧ (∀ values props, SuccImpliesIs (EnumType values props)) := by
  refine ⟨?_, ?_, ?_, ?_, ?_⟩
  · intro u c a h
    by_cases hstr : ∃ s, u = Value.vStr s
    · obtain ⟨s, rfl⟩ := hstr
      rw [cidr_validate_str] at h
      cases hf : fromCidr s with
      | some rr =>
        rw [hf] at h
        simp only [tSuccess] at h
        injection h with h2
        rw [← h2]
        rfl
      | none =>
        rw [hf] at h
        simp [tFailure] at h
    · have hns : ∀ s, u ≠ Value.vStr s := fun s he => hstr ⟨s, he⟩
      rw [cidr_validate_not_string u c hns] at h
      simp [tFailure] at h
  · intro T d nm hT hd u c a h
    rw [DefaultedType_validate_eq] at h
    cases hn : isNullish u with
    | true =>
      simp only [hn, if_true] at h
      simp only [tSuccess] at h
      injection h with h2
      show T.is a = true
      rw [← h2]
      exact hd
    | false =>
      simp only [hn, Bool.false_eq_true, if_false] at h
      exact hT u c a h
  · intro T nm hT u c a h
    rw [OptionalType_validate_eq] at h
    cases hn : isNullish u with
    | true =>
      simp only [hn, if_true] at h
      simp only [tSuccess] at h
      injection h with h2
      rw [← h2]
      rfl
    | false =>
      simp only [hn, Bool.false_eq_true, if_false] at h
      have hTa := hT u c a h
      show (if isNullish a = true then true else T.is a) = true
      cases ha : isNullish a with
      | true => simp [ha]
      | false => simp [ha, hTa]
  · intro T props hT u c a h
    rw [SizedType_validate_eq] at h
    cases hv : T.validate u c with
    | ok s =>
      rw [hv] at h
      simp only [eitherChain] at h
      cases hg : getSize s with
      | ok size =>
        simp only [hg] at h
        split at h
        · simp only [tSuccess] at h
          injection h with h2
          show T.is a = true
          rw [← h2]
          exact hT u c s hv
        · simp [tFailure] at h
      | error m =>
        rw [hg] at h
        simp at h
    | errs es =>
      rw [hv] at h
      simp only [eitherChain] at h
      simp at h
    | thrown m =>
      rw [hv] at h
      simp only [eitherChain] at h
      simp at h
  · intro values props u c a h
    rw [EnumType_validate_eq] at h
    split at h
    · next hb =>
      simp only [tSuccess] at h
      injection h with h2
      show (values.any fun v => primEqValue v a) = true
      rw [← h2]
      exact hb
    · next hb =>
      simp [tFailure] at h

/-- Witness for C9 at the Defaulted wrapper over the string codec: the default
produced on an absent input satisfies the wrapper's `is`. -/
theorem C9_witness :
    (DefaultedType strCodec (.vStr "ok") none).is (.vStr "ok") = true :=
  C9_validate_is.2.1 strCodec (.vStr "ok") none strCodec_succ_is rfl
    .vNull [] (.vStr "ok") rfl

end CommonTypes
